import Mathlib

/-!
Verification of the MinFS coordination core (src/fs/fs.go) against its
natural-language specification.

The Go source is shallowly embedded: pure fragments become Lean functions,
stateful fragments become explicit state passing or labelled transition
relations.  Machine integers (`uint64` handle counters, `uint64`/`uint32`
Statfs fields) are modelled as `Nat`; every concrete value appearing in the
source (`0x1000000000`, `32768`, `1024`, counter increments by one) is far
below `2^32`, so wrap-around never occurs and the `% 2^w` reduction is
omitted.  Fallible Go calls return `Option`/`Except` values.
-/

/-! ## Pending operations and the write-back pipeline

`MinFS.syncChan` is a `chan interface{}` (src/fs/fs.go line 82) carrying
pointers to `MoveOperation`, `CopyOperation` and `PutOperation` values.  The
operation types themselves are declared outside src/ (only the consumer in
fs.go mentions them); their fields are modelled from the spec, §3 Data Model:
`Move{source, destination}`, `Copy{source, destination}`, `Put{path, payload}`
(the payload bytes are modelled as a `String`). -/

/-- Modelled from the spec: the `MoveOperation` record (`Move{source,
destination}`); its declaration is not under src/. -/
structure MoveOperation where
  source : String
  destination : String
deriving DecidableEq

/-- Modelled from the spec: the `CopyOperation` record (`Copy{source,
destination}`); its declaration is not under src/. -/
structure CopyOperation where
  source : String
  destination : String
deriving DecidableEq

/-- Modelled from the spec: the `PutOperation` record (`Put{path, payload}`);
its declaration is not under src/. -/
structure PutOperation where
  path : String
  payload : String
deriving DecidableEq

/-- A dynamically typed value sent over `syncChan` (`interface{}` in Go).
The `other` constructor stands for a value of any type other than the three
operation pointer types; the type switch in `startSync` falls through to
`default` on it. -/
inductive GoVal where
  | moveReq (op : MoveOperation)
  | copyReq (op : CopyOperation)
  | putReq (op : PutOperation)
  | other (descr : String)
deriving DecidableEq

/-- The session state visible to `MinFS.sync` and `MinFS.shutdown`:
the contents of `syncChan` (sends that have not yet been consumed) and
whether the interrupt/termination signal handler has already run
`mfs.shutdown()` (src/fs/fs.go lines 220-227, 307-314).  The source never
closes `syncChan`, so the model has no closed-channel flag: no state of the
program distinguishes an enqueue before shutdown from one after. -/
structure SessionState where
  queue : List GoVal
  shutdownSignaled : Bool
deriving DecidableEq

namespace MinFS

/-- Embedding of `MinFS.sync` (src/fs/fs.go lines 316-319):

    func (mfs *MinFS) sync(req interface{}) error {
        mfs.syncChan <- req
        return nil
    }

The send appends to the channel's pending list; the function returns `nil`
unconditionally. -/
def sync (s : SessionState) (req : GoVal) : SessionState × Option String :=
  ({ s with queue := s.queue ++ [req] }, none)

/-- Embedding of `MinFS.shutdown` (src/fs/fs.go lines 307-314): it logs and
unmounts but touches neither `syncChan` nor any pipeline state; the only
session-visible effect is that the shutdown signal has been handled. -/
def shutdown (s : SessionState) : SessionState :=
  { s with shutdownSignaled := true }

end MinFS

/-- A call to one of the three operation handlers `mfs.moveOp`, `mfs.copyOp`,
`mfs.putOp` (src/fs/fs.go lines 321-331). -/
inductive HandlerCall where
  | moveOp (op : MoveOperation)
  | copyOp (op : CopyOperation)
  | putOp (op : PutOperation)
deriving DecidableEq

/-- Outcome of the consumer's type switch on one dequeued value
(src/fs/fs.go lines 336-345): dispatch to a handler and continue, or hit the
`default` branch, which panics with `"Unknown type"`. -/
inductive ConsumeStep where
  | dispatched (h : HandlerCall)
  | panicked (msg : String)
deriving DecidableEq

/-- The type switch body of `startSync`'s consumer goroutine
(src/fs/fs.go lines 336-345). -/
def dispatchOp : GoVal → ConsumeStep
  | .moveReq op => .dispatched (.moveOp op)
  | .copyReq op => .dispatched (.copyOp op)
  | .putReq op => .dispatched (.putOp op)
  | .other _ => .panicked "Unknown type"

/-- The handler a value would be dispatched to, `none` for the `default`
branch.  Used to state which calls the consumer makes. -/
def toHandlerCall : GoVal → Option HandlerCall
  | .moveReq op => some (.moveOp op)
  | .copyReq op => some (.copyOp op)
  | .putReq op => some (.putOp op)
  | .other _ => none

/-- The consumer loop `for req := range mfs.syncChan` of `startSync`
(src/fs/fs.go lines 334-347) applied to a list of dequeued values: it emits
the handler calls in dequeue order and stops at the first value that reaches
the `default` branch, recording the panic message. -/
def startSyncConsume : List GoVal → List HandlerCall × Option String
  | [] => ([], none)
  | v :: rest =>
    match dispatchOp v with
    | .dispatched h =>
      let r := startSyncConsume rest
      (h :: r.1, r.2)
    | .panicked m => ([], some m)

/-! ## Statfs -/

/-- The fields of a `fuse.StatfsRequest` relevant here: `Statfs` reads none
of them, so the record is opaque payload. -/
structure StatfsRequest where
  node : Nat
  uid : Nat
  gid : Nat
  pid : Nat
deriving DecidableEq

/-- The `context.Context` argument; `Statfs` reads none of it. -/
structure FuseContext where
  cancelled : Bool
deriving DecidableEq

/-- The fields of `fuse.StatfsResponse` (all `uint64`/`uint32` in Go,
modelled as `Nat`; the constants written by `Statfs` are below `2^37`). -/
structure StatfsResponse where
  blocks : Nat
  bfree : Nat
  bavail : Nat
  files : Nat
  ffree : Nat
  bsize : Nat
  namelen : Nat
  frsize : Nat
deriving DecidableEq

namespace MinFS

/-- Embedding of `MinFS.Statfs` (src/fs/fs.go lines 352-359): it overwrites
five response fields with constants, ignores the receiver, the context and
the request, and returns `nil`. -/
def Statfs (mfs : SessionState) (ctx : FuseContext) (req : StatfsRequest)
    (resp : StatfsResponse) : StatfsResponse × Option String :=
  ({ resp with
      blocks := 0x1000000000
      bfree := 0x1000000000
      bavail := 0x1000000000
      namelen := 32768
      bsize := 1024 }, none)

end MinFS

/-! ## File handle registry (sequential semantics)

`MinFS.Acquire` (src/fs/fs.go lines 362-377) increments `mfs.fdcounter`,
reads it back as the new handle id, and records `handle -> resourceKey` in
the `openfds` map under the registry lock `mfs.m`.  `MinFS.Release`
(lines 380-387) deletes the handle's entry under the same lock and returns
`nil`.  Here the calls are replayed sequentially (each call runs to
completion before the next), which is what the lock provides as long as the
counter race modelled separately below does not fire. -/

/-- The registry slice of the `MinFS` struct: `fdcounter uint64` and
`openfds map[uint64]string` (src/fs/fs.go lines 74, 77), the map as an
association list with at most one entry per handle. -/
structure RegState where
  fdcounter : Nat
  openfds : List (Nat × String)
deriving DecidableEq

/-- Go map assignment `m[h] = k`: replace any entry for `h`, then add the
new binding at the front. -/
def mapInsert (h : Nat) (k : String) (m : List (Nat × String)) :
    List (Nat × String) :=
  (h, k) :: m.filter (fun e => e.1 != h)

/-- Go `delete(m, h)`: drop the entry for `h` if present, otherwise leave
the map unchanged. -/
def mapDelete (h : Nat) (m : List (Nat × String)) : List (Nat × String) :=
  m.filter (fun e => e.1 != h)

namespace MinFS

/-- Embedding of `MinFS.Acquire` (src/fs/fs.go lines 362-377) as one
sequential step: increment `fdcounter`, use the incremented value as the
handle id, record it in `openfds`.  Returns the updated state and the
issued handle id. -/
def Acquire (s : RegState) (resourceKey : String) : RegState × Nat :=
  let c := s.fdcounter + 1
  ({ fdcounter := c, openfds := mapInsert c resourceKey s.openfds }, c)

/-- Embedding of `MinFS.Release` (src/fs/fs.go lines 380-387): delete the
handle's entry and return `nil`. -/
def Release (s : RegState) (handle : Nat) : RegState × Option String :=
  ({ s with openfds := mapDelete handle s.openfds }, none)

end MinFS

/-- One call in a sequential acquire/release history. -/
inductive RegOp where
  | acq (resourceKey : String)
  | rel (handle : Nat)
deriving DecidableEq

/-- Replay a history of registry calls from a given state. -/
def runReg : RegState → List RegOp → RegState
  | s, [] => s
  | s, .acq k :: rest => runReg (MinFS.Acquire s k).1 rest
  | s, .rel h :: rest => runReg (MinFS.Release s h).1 rest

/-- The registry at session start: counter zero, no open handles
(src/fs/fs.go lines 131-138). -/
def regInit : RegState := ⟨0, []⟩

/-- The set of handles acquired but not yet released, written directly from
the claim's words: the n-th acquire issues handle n, a release removes that
handle's entry (and nothing else) if present.  Parameters: number of
acquires so far, current live set, remaining history. -/
def liveSet : Nat → List (Nat × String) → List RegOp → List (Nat × String)
  | _, live, [] => live
  | n, live, .acq k :: rest => liveSet (n + 1) ((n + 1, k) :: live) rest
  | n, live, .rel h :: rest => liveSet n (live.filter (fun e => e.1 != h)) rest

/-! ## The Acquire counter race

`Acquire` performs `atomic.AddUint64(&mfs.fdcounter, 1)` and then reads
`mfs.fdcounter` back with a plain (non-atomic) load on the next line
(src/fs/fs.go lines 369-370); the registry lock `mfs.m` is only taken
afterwards, around the map write.  Two concurrent `Acquire` calls are
modelled as two threads each executing two instructions — `pc = 0`:
`fdcounter += 1`; `pc = 1`: `handle := fdcounter` — interleaved by an
explicit schedule. -/

structure AcqRace where
  ctr : Nat
  pcA : Nat
  hA : Nat
  pcB : Nat
  hB : Nat
deriving DecidableEq

/-- Execute the next instruction of thread A (`true`) or thread B
(`false`). -/
def raceStep (t : Bool) (s : AcqRace) : AcqRace :=
  if t then
    if s.pcA = 0 then { s with ctr := s.ctr + 1, pcA := 1 }
    else if s.pcA = 1 then { s with hA := s.ctr, pcA := 2 }
    else s
  else
    if s.pcB = 0 then { s with ctr := s.ctr + 1, pcB := 1 }
    else if s.pcB = 1 then { s with hB := s.ctr, pcB := 2 }
    else s

/-- Run two concurrent `Acquire` bodies under a schedule, starting from a
fresh session (`fdcounter = 0`). -/
def runRace (sched : List Bool) : AcqRace :=
  sched.foldl (fun s t => raceStep t s) ⟨0, 0, 0, 0, 0⟩

/-! ## Startup (`New`) -/

/-- The externally visible effects of `New` (src/fs/fs.go lines 91-142), in
source order: `InitMinFSConfig()` (line 93), opening the log file
(line 99), `os.MkdirAll(cfg.cache, 0777)` (line 122), `cfg.validate()`
(line 126).  An event is recorded when the corresponding call completes
successfully. -/
inductive NewEvent where
  | initConfig
  | openLog
  | mkdirCache
  | validateCfg
deriving DecidableEq

/-- Success or failure of each fallible call `New` makes, supplied by the
environment (filesystem and configuration contents). -/
structure NewEnv where
  initConfigOk : Bool
  openLogOk : Bool
  mkdirOk : Bool
  validateOk : Bool
deriving DecidableEq

/-- The freshly initialized `MinFS` struct literal (src/fs/fs.go
lines 131-138): empty lock table, empty handle table, zero counter, fresh
empty channel. -/
structure MinFSModel where
  fdcounter : Nat
  locks : List (String × Bool)
  openfds : List (Nat × String)
  syncQueue : List GoVal
deriving DecidableEq

/-- Embedding of `New` (src/fs/fs.go lines 91-142): each fallible call in
source order, returning the trace of completed effects and the constructed
instance (`none` when any call failed and `New` returned an error). -/
def New (env : NewEnv) : List NewEvent × Option MinFSModel :=
  if !env.initConfigOk then ([], none)
  else if !env.openLogOk then ([.initConfig], none)
  else if !env.mkdirOk then ([.initConfig, .openLog], none)
  else if !env.validateOk then ([.initConfig, .openLog, .mkdirCache], none)
  else ([.initConfig, .openLog, .mkdirCache, .validateCfg],
    some ⟨0, [], [], []⟩)

/-! ## Cache path allocator

`MinFS.NewCachePath` (src/fs/fs.go lines 414-425) joins the cache directory
with `nextSuffix()` and probes the result with `os.Stat`, regenerating on an
existing entry, returning on `os.IsNotExist`, and propagating any other stat
error.  `nextSuffix` is declared outside src/; per the spec (§4.4) it yields
"a candidate filename (unique suffix derived from a monotonic/random
source)", modelled below as a monotonic counter rendered in decimal.  The
filesystem is an oracle mapping a path to its `os.Stat` outcome. -/

/-- Outcome of `os.Stat(p)` as classified by the source: `err == nil`
(an entry exists), `os.IsNotExist(err)`, or any other error. -/
inductive StatRes where
  | found
  | missing
  | ioErr (e : String)
deriving DecidableEq

/-- `path.Join(dir, s)` for the paths arising here: a clean directory path
joined with a slash-free suffix, on which Go's `path.Clean` is the
identity, so the join is plain concatenation with a separator. -/
def pathJoin (dir s : String) : String := dir ++ "/" ++ s

/-- Little-endian decimal digits of `n`, with structural fuel so the kernel
can evaluate it (`decDigits (n + 1) n` always has enough fuel). -/
def decDigits : Nat → Nat → List Nat
  | 0, _ => []
  | fuel + 1, n => if n < 10 then [n] else n % 10 :: decDigits fuel (n / 10)

/-- Value of a little-endian decimal digit list. -/
def decVal : List Nat → Nat
  | [] => 0
  | d :: ds => d + 10 * decVal ds

/-- The character for one decimal digit. -/
def digitChar (d : Nat) : Char := Char.ofNat (48 + d)

/-- Modelled from the spec: `nextSuffix` is not under src/ (only its caller
`NewCachePath` is); per §4.4 it generates "a candidate filename (unique
suffix derived from a monotonic/random source)".  Call number `n` of the
session yields the decimal rendering of `n`. -/
def nextSuffix (n : Nat) : String :=
  String.mk (((decDigits (n + 1) n).reverse).map digitChar)

namespace MinFS

/-- Embedding of `MinFS.NewCachePath` (src/fs/fs.go lines 414-425).  `ctr`
is the state of the suffix source (advanced by one per `nextSuffix()`
call); `fuel` bounds the retry loop, which the source leaves unbounded, so
`none` means the loop did not terminate within `fuel` probes.  On success
the result carries the chosen path and the new suffix-source state. -/
def NewCachePath (stat : String → StatRes) (cache : String) :
    Nat → Nat → Option (Except String (String × Nat))
  | _, 0 => none
  | ctr, fuel + 1 =>
    match stat (pathJoin cache (nextSuffix ctr)) with
    | .found => NewCachePath stat cache (ctr + 1) fuel
    | .missing => some (.ok (pathJoin cache (nextSuffix ctr), ctr + 1))
    | .ioErr e => some (.error e)

end MinFS

/-! ## Keyed resource lock

`KeyedMutex.Lock` (src/fs/fs.go lines 47-58) looks up or lazily creates the
one mutex stored under `key` in a `sync.Map` (`LoadOrStore` guarantees all
callers of the same key share a single mutex), locks it, and hands back its
unlock closure.  The blocking lock is modelled as a labelled transition
system over the callers' states: a caller is idle, waiting to lock a key,
or holding a key; `mtx.Lock()` completes (the `acquire` label) only when no
caller holds that key's mutex, and running the returned closure is the
`release` label.  Distinct keys address distinct mutexes, so a step on one
key reads and writes no other key's holder. -/

/-- Where one caller stands with respect to the keyed lock. -/
inductive CallerState where
  | idle
  | waiting (key : String)
  | holding (key : String)
deriving DecidableEq

/-- The keyed-lock system state: each caller's position.  Holders per key
are recoverable as the callers in `holding k`. -/
def KMState := Nat → CallerState

/-- All callers idle: the zero value of `KeyedMutex` (src/fs/fs.go
line 48), ready for use with no lock held. -/
def kmInit : KMState := fun _ => .idle

/-- Transition labels: caller `c` starts a `Lock(k)` call, caller `c`'s
`mtx.Lock()` returns, caller `c` runs the returned unlock closure. -/
inductive KMLabel where
  | request (c : Nat) (k : String)
  | acquire (c : Nat) (k : String)
  | release (c : Nat) (k : String)

/-- One step of the keyed-lock system.  `acquire` is enabled exactly when
the caller is waiting on `k` and no caller holds `k`: the condition reads
only key `k`'s mutex, mirroring that `LoadOrStore` gives every key its own
mutex. -/
inductive KMStep : KMState → KMLabel → KMState → Prop where
  | request {s : KMState} {c : Nat} {k : String} :
      s c = .idle →
      KMStep s (.request c k) (Function.update s c (.waiting k))
  | acquire {s : KMState} {c : Nat} {k : String} :
      s c = .waiting k →
      (∀ c', s c' ≠ .holding k) →
      KMStep s (.acquire c k) (Function.update s c (.holding k))
  | release {s : KMState} {c : Nat} {k : String} :
      s c = .holding k →
      KMStep s (.release c k) (Function.update s c .idle)

/-- States reachable from the fresh keyed mutex. -/
inductive KMReachable : KMState → Prop where
  | init : KMReachable kmInit
  | step {s s' : KMState} {l : KMLabel} :
      KMReachable s → KMStep s l s' → KMReachable s'

/-! ## Helper lemmas -/

lemma decVal_decDigits :
    ∀ fuel n, n < 10 ^ fuel → decVal (decDigits fuel n) = n := by
  intro fuel
  induction fuel with
  | zero =>
    intro n hn
    simp only [pow_zero, Nat.lt_one_iff] at hn
    subst hn
    rfl
  | succ fuel ih =>
    intro n hn
    by_cases h10 : n < 10
    · simp [decDigits, decVal, h10]
    · have hdiv : n / 10 < 10 ^ fuel := by
        rw [Nat.div_lt_iff_lt_mul (by norm_num : (0:ℕ) < 10)]
        calc n < 10 ^ (fuel + 1) := hn
          _ = 10 ^ fuel * 10 := by ring
      simp only [decDigits, h10, if_false, decVal]
      rw [ih (n / 10) hdiv]
      omega

lemma decDigits_lt :
    ∀ fuel n d, d ∈ decDigits fuel n → d < 10 := by
  intro fuel
  induction fuel with
  | zero => intro n d hd; simp [decDigits] at hd
  | succ fuel ih =>
    intro n d hd
    by_cases h10 : n < 10
    · simp [decDigits, h10] at hd
      omega
    · simp only [decDigits, h10, if_false, List.mem_cons] at hd
      rcases hd with h | h
      · subst h; exact Nat.mod_lt _ (by norm_num)
      · exact ih _ _ h

lemma digitChar_inj_lt :
    ∀ a, a < 10 → ∀ b, b < 10 → digitChar a = digitChar b → a = b := by
  decide

lemma map_digitChar_inj :
    ∀ l₁ l₂ : List Nat, (∀ d ∈ l₁, d < 10) → (∀ d ∈ l₂, d < 10) →
      l₁.map digitChar = l₂.map digitChar → l₁ = l₂ := by
  intro l₁
  induction l₁ with
  | nil =>
    intro l₂ _ _ h
    cases l₂ with
    | nil => rfl
    | cons b bs => simp at h
  | cons a as ih =>
    intro l₂ h₁ h₂ h
    cases l₂ with
    | nil => simp at h
    | cons b bs =>
      simp only [List.map_cons, List.cons.injEq] at h
      have ha : a = b :=
        digitChar_inj_lt a (h₁ a (by simp)) b (h₂ b (by simp)) h.1
      have has : as = bs :=
        ih bs (fun d hd => h₁ d (by simp [hd]))
          (fun d hd => h₂ d (by simp [hd])) h.2
      rw [ha, has]

lemma nextSuffix_inj : ∀ m n, nextSuffix m = nextSuffix n → m = n := by
  intro m n h
  have hdata := congrArg String.data h
  have hrev : (decDigits (m + 1) m).reverse = (decDigits (n + 1) n).reverse :=
    map_digitChar_inj _ _
      (fun d hd => decDigits_lt _ _ _ (List.mem_reverse.mp hd))
      (fun d hd => decDigits_lt _ _ _ (List.mem_reverse.mp hd)) hdata
  have hdigits : decDigits (m + 1) m = decDigits (n + 1) n :=
    List.reverse_injective hrev
  have hm : decVal (decDigits (m + 1) m) = m :=
    decVal_decDigits _ _ (lt_of_lt_of_le (Nat.lt_pow_self (by norm_num) m)
      (Nat.pow_le_pow_right (by norm_num) (Nat.le_succ m)))
  have hn : decVal (decDigits (n + 1) n) = n :=
    decVal_decDigits _ _ (lt_of_lt_of_le (Nat.lt_pow_self (by norm_num) n)
      (Nat.pow_le_pow_right (by norm_num) (Nat.le_succ n)))
  rw [← hm, ← hn, hdigits]

lemma string_append_data (s t : String) : (s ++ t).data = s.data ++ t.data := by
  cases s; cases t; rfl

lemma pathJoin_inj_right (dir s₁ s₂ : String) :
    pathJoin dir s₁ = pathJoin dir s₂ → s₁ = s₂ := by
  intro h
  unfold pathJoin at h
  have hdata := congrArg String.data h
  rw [string_append_data, string_append_data, string_append_data,
    string_append_data] at hdata
  have hd : s₁.data = s₂.data := List.append_cancel_left hdata
  exact congrArg String.mk hd

lemma nextSuffix_path_inj (cache : String) {i j : Nat} (hij : i ≠ j) :
    pathJoin cache (nextSuffix i) ≠ pathJoin cache (nextSuffix j) := by
  intro h
  exact hij (nextSuffix_inj i j (pathJoin_inj_right cache _ _ h))

/-- Any successful `NewCachePath` result is the candidate at some probe
index `i` within the fuel window, whose stat came back "does not exist";
the suffix-source state advances to `i + 1`. -/
lemma NewCachePath_ok_spec (stat : String → StatRes) (cache : String) :
    ∀ fuel ctr p c',
      MinFS.NewCachePath stat cache ctr fuel = some (.ok (p, c')) →
      ∃ i, ctr ≤ i ∧ i < ctr + fuel ∧ p = pathJoin cache (nextSuffix i) ∧
        c' = i + 1 ∧ stat p = .missing := by
  intro fuel
  induction fuel with
  | zero => intro ctr p c' h; simp [MinFS.NewCachePath] at h
  | succ fuel ih =>
    intro ctr p c' h
    unfold MinFS.NewCachePath at h
    rcases hstat : stat (pathJoin cache (nextSuffix ctr)) with _ | _ | e <;>
      rw [hstat] at h
    · obtain ⟨i, hi₁, hi₂, hp, hc, hs⟩ := ih (ctr + 1) p c' h
      exact ⟨i, by omega, by omega, hp, hc, hs⟩
    · simp only [Option.some.injEq, Except.ok.injEq, Prod.mk.injEq] at h
      exact ⟨ctr, le_refl _, by omega, h.1.symm, h.2.symm, h.1 ▸ hstat⟩
    · simp at h

/-- Any failing `NewCachePath` result comes from a probe whose stat
returned a genuine I/O error, every earlier probe in the window having
found an existing entry. -/
lemma NewCachePath_err_spec (stat : String → StatRes) (cache : String) :
    ∀ fuel ctr e,
      MinFS.NewCachePath stat cache ctr fuel = some (.error e) →
      ∃ i, ctr ≤ i ∧ i < ctr + fuel ∧
        stat (pathJoin cache (nextSuffix i)) = .ioErr e := by
  intro fuel
  induction fuel with
  | zero => intro ctr e h; simp [MinFS.NewCachePath] at h
  | succ fuel ih =>
    intro ctr e h
    unfold MinFS.NewCachePath at h
    rcases hstat : stat (pathJoin cache (nextSuffix ctr)) with _ | _ | e' <;>
      rw [hstat] at h
    · obtain ⟨i, hi₁, hi₂, hs⟩ := ih (ctr + 1) e h
      exact ⟨i, by omega, by omega, hs⟩
    · simp at h
    · simp only [Option.some.injEq, Except.error.injEq] at h
      exact ⟨ctr, le_refl _, by omega, h ▸ hstat⟩

/-- Replaying a call history from a state whose open handles are all at most
the counter: the code's table tracks the claim's live set exactly, and the
counter stays an upper bound for every live handle. -/
lemma runReg_spec :
    ∀ (ops : List RegOp) (n : Nat) (live : List (Nat × String)),
      (∀ e ∈ live, e.1 ≤ n) →
      (runReg ⟨n, live⟩ ops).openfds = liveSet n live ops := by
  intro ops
  induction ops with
  | nil => intro n live _; rfl
  | cons op rest ih =>
    intro n live hb
    cases op with
    | acq k =>
      have hfilter : live.filter (fun e => e.1 != n + 1) = live :=
        List.filter_eq_self.mpr (fun e he => by
          have := hb e he
          simp only [bne_iff_ne, ne_eq, decide_eq_true_eq]
          omega)
      show (runReg ⟨n + 1, mapInsert (n + 1) k live⟩ rest).openfds =
        liveSet (n + 1) ((n + 1, k) :: live) rest
      unfold mapInsert
      rw [hfilter]
      exact ih (n + 1) ((n + 1, k) :: live) (fun e he => by
        rcases List.mem_cons.mp he with h | h
        · rw [h]
        · exact le_trans (hb e h) (Nat.le_succ n))
    | rel h =>
      show (runReg ⟨n, mapDelete h live⟩ rest).openfds =
        liveSet n (live.filter (fun e => e.1 != h)) rest
      exact ih n _ (fun e he => hb e (List.mem_of_mem_filter he))

/-- Per-key mutual exclusion is an invariant of the keyed-lock system: in
any reachable state, at most one caller holds any given key. -/
lemma km_mutex {s : KMState} (hs : KMReachable s) :
    ∀ k c₁ c₂, s c₁ = .holding k → s c₂ = .holding k → c₁ = c₂ := by
  induction hs with
  | init => intro k c₁ c₂ h₁; simp [kmInit] at h₁
  | step _ hstep ih =>
    intro k c₁ c₂ h₁ h₂
    cases hstep with
    | @request c k' hc =>
      by_cases e₁ : c₁ = c
      · rw [e₁, Function.update_same] at h₁; cases h₁
      · by_cases e₂ : c₂ = c
        · rw [e₂, Function.update_same] at h₂; cases h₂
        · rw [Function.update_noteq e₁] at h₁
          rw [Function.update_noteq e₂] at h₂
          exact ih k c₁ c₂ h₁ h₂
    | @acquire c k' hc hfree =>
      by_cases e₁ : c₁ = c
      · by_cases e₂ : c₂ = c
        · rw [e₁, e₂]
        · rw [Function.update_noteq e₂] at h₂
          rw [e₁, Function.update_same] at h₁
          cases h₁
          exact absurd h₂ (hfree c₂)
      · rw [Function.update_noteq e₁] at h₁
        by_cases e₂ : c₂ = c
        · rw [e₂, Function.update_same] at h₂
          cases h₂
          exact absurd h₁ (hfree c₁)
        · rw [Function.update_noteq e₂] at h₂
          exact ih k c₁ c₂ h₁ h₂
    | @release c k' hc =>
      by_cases e₁ : c₁ = c
      · rw [e₁, Function.update_same] at h₁; cases h₁
      · by_cases e₂ : c₂ = c
        · rw [e₂, Function.update_same] at h₂; cases h₂
        · rw [Function.update_noteq e₁] at h₁
          rw [Function.update_noteq e₂] at h₂
          exact ih k c₁ c₂ h₁ h₂

/-! ## Claim theorems -/

/-- C1: in every reachable state of the keyed-lock system, at most one
caller holds the lock for any key; while some caller holds key `k`, no
`acquire` step for `k` is possible (a `Lock(k)` caller stays blocked until
the holder's release), and a caller waiting on `k` can acquire it whenever
no caller holds `k`, even while another caller holds a distinct key — so
callers locking distinct keys never block each other. -/
theorem keyedMutex_lock_exclusive :
    ∀ s : KMState, KMReachable s →
      (∀ k c₁ c₂, s c₁ = .holding k → s c₂ = .holding k → c₁ = c₂) ∧
      (∀ c c' k, s c' = .holding k → ∀ s', ¬ KMStep s (.acquire c k) s') ∧
      (∀ c c' k k', k ≠ k' → s c = .waiting k → s c' = .holding k' →
        (∀ c'', s c'' ≠ .holding k) →
        ∃ s', KMStep s (.acquire c k) s') := by
  intro s hs
  refine ⟨km_mutex hs, ?_, ?_⟩
  · intro c c' k hc' s' hstep
    cases hstep with
    | acquire hw hfree => exact hfree c' hc'
  · intro c c' k k' _ hc _ hfree
    exact ⟨Function.update s c (.holding k), KMStep.acquire hc hfree⟩

/-- A concrete reachable keyed-lock state, first step: caller 0 asks for
`"a"`. -/
def kmW1 : KMState := Function.update kmInit 0 (.waiting "a")

/-- Second step: caller 0 acquires `"a"`. -/
def kmW2 : KMState := Function.update kmW1 0 (.holding "a")

/-- Third step: caller 1 asks for `"b"` while caller 0 holds `"a"`. -/
def kmW3 : KMState := Function.update kmW2 1 (.waiting "b")

lemma kmW3_reachable : KMReachable kmW3 := by
  have h1 : KMStep kmInit (.request 0 "a") kmW1 := KMStep.request rfl
  have h2 : KMStep kmW1 (.acquire 0 "a") kmW2 :=
    KMStep.acquire (by simp [kmW1, Function.update]) (by
      intro c'
      by_cases h : c' = 0 <;> simp [kmW1, Function.update, h, kmInit])
  have h3 : KMStep kmW2 (.request 1 "b") kmW3 :=
    KMStep.request (by simp [kmW2, kmW1, Function.update, kmInit])
  exact .step (.step (.step .init h1) h2) h3

/-- Witness for C1: with caller 0 holding `"a"`, caller 1's acquire of the
distinct key `"b"` is enabled. -/
theorem keyedMutex_lock_exclusive_witness :
    ∃ s', KMStep kmW3 (.acquire 1 "b") s' := by
  refine (keyedMutex_lock_exclusive kmW3 kmW3_reachable).2.2 1 0 "b" "a"
    (by decide) ?_ ?_ ?_
  · simp [kmW3, Function.update]
  · simp [kmW3, kmW2, Function.update]
  · intro c''
    by_cases h0 : c'' = 0
    · subst h0; simp [kmW3, kmW2, Function.update]
    · by_cases h1 : c'' = 1
      · subst h1; simp [kmW3, Function.update]
      · simp [kmW3, kmW2, kmW1, kmInit, Function.update, h0, h1]

/-- C2: evaluation of the two-caller interleaving "A's atomic add, B's
atomic add, A's read of `fdcounter`, B's read".  Both `Acquire` bodies run
to completion and both callers receive handle id 2: the separate non-atomic
read on src/fs/fs.go line 370 discards the value returned by
`atomic.AddUint64`, so concurrently issued handle ids are neither strictly
increasing nor pairwise distinct, contradicting the comment on line 368
("Every new open request gets it's own ID"). -/
theorem acquire_handle_duplicate_race :
    (runRace [true, false, true, false]).pcA = 2 ∧
    (runRace [true, false, true, false]).pcB = 2 ∧
    (runRace [true, false, true, false]).hA = 2 ∧
    (runRace [true, false, true, false]).hB = 2 := by decide

/-- C3 counterexample: after the shutdown signal has been handled
(`mfs.shutdown()` ran), submitting an operation still returns `nil` — the
enqueue does not fail, refuting "an operation submitted after the shutdown
signal is accepted fails clearly". -/
theorem sync_shutdown_counterexample :
    (MinFS.shutdown ⟨[], false⟩).shutdownSignaled = true ∧
    (MinFS.sync (MinFS.shutdown ⟨[], false⟩) (.other "late-op")).2 = none ∧
    (MinFS.sync (MinFS.shutdown ⟨[], false⟩) (.other "late-op")).1.queue =
      [.other "late-op"] :=
  ⟨rfl, rfl, rfl⟩

/-- C3 (amended): `MinFS.sync` never fails — it returns `nil` for every
request both before and after the shutdown signal, and a post-shutdown
submission is still appended to the channel (accepted silently), because
the shutdown path never closes `syncChan` and `sync` has no error case. -/
theorem sync_accepts_after_shutdown :
    ∀ (s : SessionState) (req : GoVal),
      (MinFS.sync s req).2 = none ∧
      (MinFS.sync (MinFS.shutdown s) req).2 = none ∧
      (MinFS.sync (MinFS.shutdown s) req).1.queue = s.queue ++ [req] :=
  fun _ _ => ⟨rfl, rfl, rfl⟩

/-- C4: two consecutive `NewCachePath` calls sharing one suffix-source
state (the second starts where the first left off) and probing the same
unchanged filesystem return distinct paths, and both paths lie directly
under the configured cache directory. -/
theorem newCachePath_pairwise_distinct :
    ∀ (stat : String → StatRes) (cache : String) (ctr f₁ f₂ : Nat)
      (p₁ : String) (c₁ : Nat) (p₂ : String) (c₂ : Nat),
      MinFS.NewCachePath stat cache ctr f₁ = some (.ok (p₁, c₁)) →
      MinFS.NewCachePath stat cache c₁ f₂ = some (.ok (p₂, c₂)) →
      p₁ ≠ p₂ ∧ (∃ s, p₁ = cache ++ "/" ++ s) ∧
        (∃ s, p₂ = cache ++ "/" ++ s) := by
  intro stat cache ctr f₁ f₂ p₁ c₁ p₂ c₂ h₁ h₂
  obtain ⟨i, hi₁, hi₂, hp₁, hc₁, _⟩ :=
    NewCachePath_ok_spec stat cache f₁ ctr p₁ c₁ h₁
  obtain ⟨j, hj₁, hj₂, hp₂, hc₂, _⟩ :=
    NewCachePath_ok_spec stat cache f₂ c₁ p₂ c₂ h₂
  have hij : i ≠ j := by omega
  subst hp₁; subst hp₂
  exact ⟨nextSuffix_path_inj cache hij, ⟨nextSuffix i, rfl⟩,
    ⟨nextSuffix j, rfl⟩⟩

/-- Witness for C4: cache directory `/tmp/x`, empty filesystem, two
consecutive calls: the paths `/tmp/x/0` and `/tmp/x/1` are distinct and
both under `/tmp/x`. -/
theorem newCachePath_pairwise_distinct_witness :
    "/tmp/x/0" ≠ "/tmp/x/1" ∧
    (∃ s, "/tmp/x/0" = "/tmp/x" ++ "/" ++ s) ∧
    (∃ s, "/tmp/x/1" = "/tmp/x" ++ "/" ++ s) :=
  newCachePath_pairwise_distinct (fun _ => .missing) "/tmp/x" 0 1 1
    "/tmp/x/0" 1 "/tmp/x/1" 2 rfl rfl

/-- C5: replaying any sequence of `Acquire`/`Release` calls from a fresh
session leaves `openfds` holding exactly the handles acquired but not yet
released, and `Release` on a handle absent from the table returns `nil`
and leaves the state unchanged (a successful no-op). -/
theorem registry_live_set_exact :
    ∀ ops : List RegOp,
      (runReg regInit ops).openfds = liveSet 0 [] ops ∧
      (∀ (s : RegState) (h : Nat), (∀ k, (h, k) ∉ s.openfds) →
        MinFS.Release s h = (s, none)) := by
  intro ops
  constructor
  · exact runReg_spec ops 0 [] (by intro e he; simp at he)
  · intro s h habs
    have hfilter : s.openfds.filter (fun e => e.1 != h) = s.openfds :=
      List.filter_eq_self.mpr (fun e he => by
        simp only [bne_iff_ne, ne_eq, decide_eq_true_eq]
        intro hcontra
        apply habs e.2
        have he' : e = (h, e.2) := by
          cases e; simp_all
        rwa [he'] at he)
    show ({ s with openfds := mapDelete h s.openfds }, none) = (s, none)
    rw [show mapDelete h s.openfds = s.openfds from hfilter]

/-- Witness for C5: after `acquire "a"; acquire "b"; release 1` the table
is exactly `{2 -> "b"}`, and releasing the absent handle 7 is a successful
no-op. -/
theorem registry_live_set_exact_witness :
    (runReg regInit [.acq "a", .acq "b", .rel 1]).openfds =
      liveSet 0 [] [.acq "a", .acq "b", .rel 1] ∧
    MinFS.Release ⟨2, [(2, "b")]⟩ 7 = (⟨2, [(2, "b")]⟩, none) :=
  ⟨(registry_live_set_exact [.acq "a", .acq "b", .rel 1]).1,
    (registry_live_set_exact []).2 ⟨2, [(2, "b")]⟩ 7
      (by intro k hk; simp at hk)⟩

/-- C6 counterexample: with a configuration that fails validation (and all
earlier calls succeeding), `New` still creates the cache directory — the
`os.MkdirAll` on src/fs/fs.go line 122 runs before `cfg.validate()` on
line 126 — while validation never succeeds in the run and no instance is
returned.  This refutes "the cache directory is never created before
validation succeeds". -/
theorem new_mkdir_before_validate_counterexample :
    (New ⟨true, true, true, false⟩).2 = none ∧
    NewEvent.mkdirCache ∈ (New ⟨true, true, true, false⟩).1 ∧
    NewEvent.validateCfg ∉ (New ⟨true, true, true, false⟩).1 := by decide

/-- C6 (amended): during `New` the cache directory is created first and the
configuration validated afterwards; if validation fails, `New` returns an
error and no `MinFS` instance, but the cache directory has already been
created by that point (whenever the earlier calls succeeded). -/
theorem new_validation_after_mkdir :
    ∀ env : NewEnv,
      (env.validateOk = false → (New env).2 = none) ∧
      ((New env).2.isSome = true →
        (New env).1 = [.initConfig, .openLog, .mkdirCache, .validateCfg]) ∧
      (env.initConfigOk = true → env.openLogOk = true → env.mkdirOk = true →
        NewEvent.mkdirCache ∈ (New env).1) := by
  intro env
  rcases env with ⟨ic, ol, mk, va⟩
  cases ic <;> cases ol <;> cases mk <;> cases va <;> exact (by decide)

/-- Witness for C6 (amended): the failing-validation run returns no
instance yet has created the cache directory. -/
theorem new_validation_after_mkdir_witness :
    (New ⟨true, true, true, false⟩).2 = none ∧
    NewEvent.mkdirCache ∈ (New ⟨true, true, true, false⟩).1 :=
  ⟨(new_validation_after_mkdir ⟨true, true, true, false⟩).1 rfl,
    (new_validation_after_mkdir ⟨true, true, true, false⟩).2.2 rfl rfl rfl⟩

/-- C7: a successful `NewCachePath` result is a path whose stat probe said
"does not exist"; a failing result arises exactly from a probe that
returned a genuine I/O error (an error at the current candidate propagates
immediately, and a "does not exist" probe terminates the loop successfully
rather than failing). -/
theorem newCachePath_error_iff_ioerr :
    ∀ (stat : String → StatRes) (cache : String) (ctr fuel : Nat),
      (∀ p c', MinFS.NewCachePath stat cache ctr fuel = some (.ok (p, c')) →
        stat p = .missing) ∧
      (∀ e, MinFS.NewCachePath stat cache ctr fuel = some (.error e) →
        ∃ i, ctr ≤ i ∧ i < ctr + fuel ∧
          stat (pathJoin cache (nextSuffix i)) = .ioErr e) ∧
      (∀ e, stat (pathJoin cache (nextSuffix ctr)) = .ioErr e →
        MinFS.NewCachePath stat cache ctr (fuel + 1) = some (.error e)) ∧
      (stat (pathJoin cache (nextSuffix ctr)) = .missing →
        MinFS.NewCachePath stat cache ctr (fuel + 1) =
          some (.ok (pathJoin cache (nextSuffix ctr), ctr + 1))) := by
  intro stat cache ctr fuel
  refine ⟨?_, ?_, ?_, ?_⟩
  · intro p c' h
    obtain ⟨_, _, _, _, _, hs⟩ :=
      NewCachePath_ok_spec stat cache fuel ctr p c' h
    exact hs
  · intro e h
    exact NewCachePath_err_spec stat cache fuel ctr e h
  · intro e he
    unfold MinFS.NewCachePath
    rw [he]
  · intro hm
    unfold MinFS.NewCachePath
    rw [hm]

/-- Witness for C7: on an empty filesystem the first candidate's probe says
"does not exist" and the call succeeds with that candidate. -/
theorem newCachePath_error_iff_ioerr_witness :
    MinFS.NewCachePath (fun _ => .missing) "/tmp/x" 1 1 =
      some (.ok ("/tmp/x/1", 2)) :=
  (newCachePath_error_iff_ioerr (fun _ => .missing) "/tmp/x" 1 0).2.2.2 rfl

/-- C8: the consumer's type switch dispatches each of the three operation
variants to its handler (`moveOp`, `copyOp`, `putOp`) and any other value
panics with "Unknown type"; a dequeued list containing only the three
variants is dispatched in order with no panic (the terminating branch is
unreachable), while a list reaching an unrecognized value stops the loop
at that value. -/
theorem startSync_dispatch_total :
    (∀ m, dispatchOp (.moveReq m) = .dispatched (.moveOp m)) ∧
    (∀ c, dispatchOp (.copyReq c) = .dispatched (.copyOp c)) ∧
    (∀ p, dispatchOp (.putReq p) = .dispatched (.putOp p)) ∧
    (∀ d, dispatchOp (.other d) = .panicked "Unknown type") ∧
    (∀ vs : List GoVal, (∀ v ∈ vs, (toHandlerCall v).isSome = true) →
      startSyncConsume vs = (vs.filterMap toHandlerCall, none)) ∧
    (∀ (vs : List GoVal) (d : String) (rest : List GoVal),
      (∀ v ∈ vs, (toHandlerCall v).isSome = true) →
      startSyncConsume (vs ++ .other d :: rest) =
        (vs.filterMap toHandlerCall, some "Unknown type")) := by
  refine ⟨fun _ => rfl, fun _ => rfl, fun _ => rfl, fun _ => rfl, ?_, ?_⟩
  · intro vs
    induction vs with
    | nil => intro _; rfl
    | cons v rest ih =>
      intro hall
      have hv := hall v (by simp)
      have hrest := ih (fun w hw => hall w (by simp [hw]))
      cases v with
      | moveReq m =>
        simp [startSyncConsume, dispatchOp, toHandlerCall,
          List.filterMap_cons, hrest]
      | copyReq c =>
        simp [startSyncConsume, dispatchOp, toHandlerCall,
          List.filterMap_cons, hrest]
      | putReq p =>
        simp [startSyncConsume, dispatchOp, toHandlerCall,
          List.filterMap_cons, hrest]
      | other d => simp [toHandlerCall] at hv
  · intro vs d rest
    induction vs with
    | nil => intro _; rfl
    | cons v vs' ih =>
      intro hall
      have hv := hall v (by simp)
      have hrest := ih (fun w hw => hall w (by simp [hw]))
      cases v with
      | moveReq m =>
        simp [startSyncConsume, dispatchOp, toHandlerCall,
          List.filterMap_cons, hrest]
      | copyReq c =>
        simp [startSyncConsume, dispatchOp, toHandlerCall,
          List.filterMap_cons, hrest]
      | putReq p =>
        simp [startSyncConsume, dispatchOp, toHandlerCall,
          List.filterMap_cons, hrest]
      | other d' => simp [toHandlerCall] at hv

/-- Witness for C8: a move followed by a put is dispatched to `moveOp`
then `putOp` with no panic. -/
theorem startSync_dispatch_total_witness :
    startSyncConsume [.moveReq ⟨"a", "b"⟩, .putReq ⟨"p", "d"⟩] =
      ([.moveOp ⟨"a", "b"⟩, .putOp ⟨"p", "d"⟩], none) :=
  (startSync_dispatch_total.2.2.2.2.1
    [.moveReq ⟨"a", "b"⟩, .putReq ⟨"p", "d"⟩] (by decide)).trans (by decide)

/-- C9: `Statfs` writes the same five sentinel constants — block count,
free blocks and available blocks `0x1000000000`, max name length `32768`,
block size `1024` — and returns `nil`, for every receiver state, context,
request and prior response contents. -/
theorem statfs_fixed_sentinels :
    ∀ (mfs mfs' : SessionState) (ctx ctx' : FuseContext)
      (req req' : StatfsRequest) (resp : StatfsResponse),
      (MinFS.Statfs mfs ctx req resp).1.blocks = 0x1000000000 ∧
      (MinFS.Statfs mfs ctx req resp).1.bfree = 0x1000000000 ∧
      (MinFS.Statfs mfs ctx req resp).1.bavail = 0x1000000000 ∧
      (MinFS.Statfs mfs ctx req resp).1.namelen = 32768 ∧
      (MinFS.Statfs mfs ctx req resp).1.bsize = 1024 ∧
      (MinFS.Statfs mfs ctx req resp).2 = none ∧
      MinFS.Statfs mfs ctx req resp = MinFS.Statfs mfs' ctx' req' resp :=
  fun _ _ _ _ _ _ _ => ⟨rfl, rfl, rfl, rfl, rfl, rfl, rfl⟩

/-- C10: `MinFS.sync` returns `nil` for every session state and request
value; the error result of an enqueue carries no information. -/
theorem sync_returns_nil :
    ∀ (s : SessionState) (req : GoVal), (MinFS.sync s req).2 = none :=
  fun _ _ => rfl
